import Mathlib

/-!
Verification of the xtemplate build and request-serving engine.

Go strings are modelled as lists of characters (`List Char`); the strings that
matter here (paths, hashes, header tokens) are ASCII, where Go's byte-wise
operations and the character-wise model coincide.  Each `...Go` definition is a
shallow embedding of the corresponding Go standard-library function, and the
`xtemplate` namespace holds embeddings of the repository's own functions,
translated line by line from `build.go` and `server.go`.
-/

/-- Converts a string literal to the `List Char` representation used by the
Go-string model. -/
def gs (s : String) : List Char := s.data

/-- Go `strings.TrimPrefix`: returns `s` without the leading `pre`, or `s`
unchanged when `pre` is not a prefix of `s`. -/
def trimPrefixGo (s pre : List Char) : List Char :=
  if pre.isPrefixOf s then s.drop pre.length else s

/-- Go `strings.TrimSuffix`: returns `s` without the trailing `suf`, or `s`
unchanged when `suf` is not a suffix of `s`. -/
def trimSuffixGo (s suf : List Char) : List Char :=
  if suf.isSuffixOf s then s.take (s.length - suf.length) else s

/-- Go `strings.Split` with a single-character separator: cuts `s` at every
occurrence of `sep`, keeping empty pieces. -/
def splitCharGo (sep : Char) : List Char → List (List Char)
  | [] => [[]]
  | c :: rest =>
    let r := splitCharGo sep rest
    if c = sep then [] :: r
    else
      match r with
      | h :: t => (c :: h) :: t
      | [] => [[c]]

/-- Drops the longest run of characters satisfying `p` from the end of `l`. -/
def dropWhileEndGo (p : Char → Bool) (l : List Char) : List Char :=
  (l.reverse.dropWhile p).reverse

/-- Stack phase of Go `path.Clean`: processes path elements left to right;
`..` pops the previous element, is dropped at the root of a rooted path, and
accumulates at the start of an unrooted path.  The stack is kept reversed
(most recent element first). -/
def pathCleanCore (rooted : Bool) : List (List Char) → List (List Char) → List (List Char)
  | st, [] => st
  | st, c :: cs =>
    if c = gs ".." then
      match st with
      | [] => pathCleanCore rooted (if rooted then [] else [c]) cs
      | top :: rest =>
        if top = gs ".." then pathCleanCore rooted (c :: st) cs
        else pathCleanCore rooted rest cs
    else pathCleanCore rooted (c :: st) cs

/-- Go `path.Clean`: collapses repeated slashes, eliminates `.` and `..`
elements, and removes trailing slashes; the empty path cleans to `.`. -/
def pathCleanGo (p : List Char) : List Char :=
  if p = [] then gs "."
  else
    let rooted := decide (p.head? = some '/')
    let comps := (splitCharGo '/' p).filter fun c => decide (c ≠ [] ∧ c ≠ gs ".")
    let stack := (pathCleanCore rooted [] comps).reverse
    let out := (if rooted then gs "/" else []) ++ List.intercalate (gs "/") stack
    if out = [] then gs "." else out

/-- Go `path.Split` (and `filepath.Split` on a slash-separated system):
returns the directory part up to and including the final slash, and the file
part after it. -/
def splitGo (p : List Char) : List Char × List Char :=
  let r := p.reverse
  ((r.dropWhile fun c => decide (c ≠ '/')).reverse,
   (r.takeWhile fun c => decide (c ≠ '/')).reverse)

/-- Go `path.Base`: the last element of the path after removing trailing
slashes; `.` for the empty path and `/` for an all-slash path. -/
def pathBaseGo (p : List Char) : List Char :=
  if p = [] then gs "."
  else
    let p1 := dropWhileEndGo (fun c => c == '/') p
    if p1 = [] then gs "/" else (splitGo p1).2

/-- Go `path.Dir`: everything up to the final slash, Cleaned (so no trailing
slash remains except for the root). -/
def pathDirGo (p : List Char) : List Char :=
  pathCleanGo (splitGo p).1

/-- Go `filepath.Ext`: the suffix of the final element starting at its last
dot, or empty when the final element has no dot. -/
def extGo (p : List Char) : List Char :=
  let seg := p.reverse.takeWhile fun c => decide (c ≠ '/')
  if seg.contains '.' then ((seg.takeWhile fun c => decide (c ≠ '.')) ++ gs ".").reverse
  else []

/-- Kinds of request handler the engine can bind to a route. -/
inductive HandlerKind
  | buffered
  | streaming
  | static
deriving DecidableEq

/-- One registered route: the ServeMux pattern and the kind of handler bound
to it. -/
structure RouteReg where
  pattern : List Char
  kind : HandlerKind
deriving DecidableEq

namespace xtemplate

/-- Rejection test of the `?hash=` gate in `staticFileHandler` (server.go
lines 249-254): the handler responds 404 exactly when the query parameter is
non-empty and more than 31 characters of the stored hash remain after trimming
the supplied value as a prefix. -/
def staticHashRejects (storedHash queryhash : List Char) : Bool :=
  !queryhash.isEmpty && decide ((trimPrefixGo storedHash queryhash).length > 31)

/-- The static handler serves the file (rather than responding 404) iff the
hash gate does not reject the request. -/
def staticHashServes (storedHash queryhash : List Char) : Bool :=
  !staticHashRejects storedHash queryhash

/-- Hidden-file test of addTemplateHandler (build.go lines 224-226): split the
cleaned path with filepath.Split and test whether the file part begins with a
dot. -/
def isHiddenPath (path_ : List Char) : Bool :=
  let file := (splitGo path_).2
  decide (0 < file.length) && (file.head? == some '.')

/-- Route path derivation for a file-level template (build.go lines 228-236):
strip the template extension from the cleaned path; when the basename of the
result is `index`, replace it by its parent directory (path.Dir); when the
result ends with a slash, append the literal `\x7b$\x7d` anchor. -/
def templateRoutePathForFile (templateExtension path_ : List Char) : List Char :=
  let routePath := trimSuffixGo path_ templateExtension
  let routePath := if pathBaseGo routePath = gs "index" then pathDirGo routePath else routePath
  if (gs "/").isSuffixOf routePath then routePath ++ gs "\x7b$\x7d" else routePath

/-- File-level route registration of addTemplateHandler: the walk path is
normalized with path.Clean("/" + path); hidden files register no route, other
files register the pattern GET plus the derived route path. -/
def templateFileRoute (templateExtension walkPath : List Char) : Option (List Char) :=
  let path_ := pathCleanGo ('/' :: walkPath)
  if isHiddenPath path_ then none
  else some (gs "GET " ++ templateRoutePathForFile templateExtension path_)

/-- Methods recognized by the routeMatcher regular expression of build.go,
in the order they appear in the alternation. -/
def routeMethods : List (List Char) :=
  [gs "GET", gs "POST", gs "PUT", gs "PATCH", gs "DELETE", gs "SSE"]

/-- Model of the routeMatcher regexp match (build.go line 199): a template
name matches when it starts with one of the six methods followed by a space;
the match yields the method and the remainder of the name. -/
def matchRouteName (name : List Char) : Option (List Char × List Char) :=
  routeMethods.findSome? fun m =>
    if (m ++ [' ']).isPrefixOf name then some (m, name.drop (m.length + 1)) else none

/-- Routes registered by addTemplateHandler for one parsed template tree
(build.go lines 222-247): the tree named after the file registers the derived
GET route to the buffered handler unless the file is hidden; a tree whose name
matches the route regexp registers to the buffered handler, except SSE names
which register a GET route to the streaming handler; all other names register
nothing. -/
def routesForTemplateName (templateExtension path_ name : List Char) : List RouteReg :=
  if name = path_ then
    if isHiddenPath path_ then []
    else [⟨gs "GET " ++ templateRoutePathForFile templateExtension path_, .buffered⟩]
  else
    match matchRouteName name with
    | some (m, p) =>
        if m = gs "SSE" then [⟨gs "GET " ++ p, .streaming⟩]
        else [⟨m ++ [' '] ++ p, .buffered⟩]
    | none => []

/-- Namespace additions and route registrations performed by
addTemplateHandler for one template file: every parsed tree (the tree named
after the cleaned file path, plus every define-name) is added to the shared
namespace, and each name contributes routes per routesForTemplateName. -/
def addTemplateHandler (templateExtension walkPath : List Char)
    (defineNames : List (List Char)) : List (List Char) × List RouteReg :=
  let path_ := pathCleanGo ('/' :: walkPath)
  let names := path_ :: defineNames
  (names, names.flatMap (routesForTemplateName templateExtension path_))

end xtemplate

/-- One encoding variant of a static file (build.go encodingInfo): encoding
name, source file path, size, and modification time (abstracted to an
integer timestamp). -/
structure encodingInfo where
  encoding : List Char
  path : List Char
  size : Int
  modtime : Int
deriving DecidableEq

/-- One static file entry (build.go fileInfo): SRI hash, content type, and
the list of encoding variants. -/
structure fileInfo where
  hash : List Char
  contentType : List Char
  encodings : List encodingInfo
deriving DecidableEq

/-- One file of the template filesystem as observed by addStaticFileHandler.
Hashing and decompression are I/O, so the model takes their results as
inputs: `rawHash` is the SRI hash of the file bytes read directly,
`decodedHash` the SRI hash after decompressing per the file's extension, and
`decodeOk` whether the decompressor could be constructed. -/
structure ScannedFile where
  path : List Char
  size : Int
  modtime : Int
  rawHash : List Char
  decodedHash : List Char
  decodeOk : Bool
  sniffedContentType : List Char
deriving DecidableEq

/-- The extensionContentTypes table of build.go. -/
def extensionContentTypes (ext : List Char) : Option (List Char) :=
  if ext = gs ".css" then some (gs "text/css; charset=utf-8")
  else if ext = gs ".js" then some (gs "text/javascript; charset=utf-8")
  else if ext = gs ".csv" then some (gs "text/csv")
  else none

/-- Content type assignment of build.go lines 173-183: the extension table
when it applies, otherwise the type sniffed from the first 512 bytes. -/
def contentTypeFor (ext sniffed : List Char) : List Char :=
  (extensionContentTypes ext).getD sniffed

namespace xtemplate

/-- Build-time state accumulated while scanning static files: the files map
(modelled as an association list with first-match lookup) and the registered
routes in registration order. -/
structure BuildState where
  files : List (List Char × fileInfo)
  routes : List RouteReg
deriving DecidableEq

/-- First-match lookup in the files map. -/
def assocGet (k : List Char) : List (List Char × fileInfo) → Option fileInfo
  | [] => none
  | (k1, v1) :: rest => if k1 = k then some v1 else assocGet k rest

/-- Map update: replaces the value under an existing key, appends otherwise. -/
def assocSet (k : List Char) (v : fileInfo) :
    List (List Char × fileInfo) → List (List Char × fileInfo)
  | [] => [(k, v)]
  | (k1, v1) :: rest => if k1 = k then (k, v) :: rest else (k1, v1) :: assocSet k v rest

/-- Inserts a variant into a size-sorted variant list keeping the order. -/
def insertBySize (e : encodingInfo) : List encodingInfo → List encodingInfo
  | [] => [e]
  | x :: xs => if e.size ≤ x.size then e :: x :: xs else x :: insertBySize e xs

/-- Model of the sort.Slice call of build.go line 192, which orders the
variant list by ascending size (the Go sort is unstable, so any size-sorted
permutation is a faithful model; insertion sort is used here). -/
def sortBySize : List encodingInfo → List encodingInfo
  | [] => []
  | x :: xs => insertBySize x (sortBySize xs)

/-- Encoding assigned to a companion file by its extension (the switch of
build.go lines 142-152); extensions outside the table leave the encoding at
`identity`. -/
def encodingForExt (ext : List Char) : List Char :=
  if ext = gs ".gz" then gs "gzip"
  else if ext = gs ".zst" then gs "zstd"
  else if ext = gs ".br" then gs "br"
  else gs "identity"

/-- Model of addStaticFileHandler (build.go lines 119-197): compute the
extension and the extension-stripped cleaned path; when an entry already
exists under the stripped path the file is a companion and is decoded per its
extension, otherwise the file is its own identity under its full cleaned
path.  Identity files record hash, content type and a fresh singleton variant
list and register a GET route to the static handler; companion files must
hash (after decoding) to the identity's stored hash — a mismatch fails the
build — and are appended to the variant list, which is then re-sorted by
ascending size. -/
def addStaticFileHandler (st : BuildState) (f : ScannedFile) :
    Except (List Char) BuildState :=
  let ext := extGo f.path
  let cleaned := pathCleanGo ('/' :: f.path)
  let stripped := trimSuffixGo cleaned ext
  match assocGet stripped st.files with
  | some file =>
      let encoding := encodingForExt ext
      if (encoding = gs "gzip" ∨ encoding = gs "zstd") ∧ ¬f.decodeOk = true then
        .error (gs "failed to create decompressor for file")
      else
        if encoding = gs "identity" then
          -- an unrecognized extension whose stripped path collides with an
          -- existing entry: the file is read raw and replaces that entry
          let file1 : fileInfo :=
            ⟨f.rawHash, contentTypeFor ext f.sniffedContentType,
              [⟨gs "identity", f.path, f.size, f.modtime⟩]⟩
          .ok ⟨assocSet stripped file1 st.files,
            st.routes ++ [⟨gs "GET " ++ stripped, .static⟩]⟩
        else
          if file.hash ≠ f.decodedHash then
            .error (gs "encoded file contents did not match original file")
          else
            let file1 : fileInfo :=
              ⟨file.hash, file.contentType,
                sortBySize (file.encodings ++ [⟨encoding, f.path, f.size, f.modtime⟩])⟩
            .ok ⟨assocSet stripped file1 st.files, st.routes⟩
  | none =>
      let file1 : fileInfo :=
        ⟨f.rawHash, contentTypeFor ext f.sniffedContentType,
          [⟨gs "identity", f.path, f.size, f.modtime⟩]⟩
      .ok ⟨assocSet cleaned file1 st.files,
        st.routes ++ [⟨gs "GET " ++ cleaned, .static⟩]⟩

/-- Folds the static-file scanner over a list of files, aborting on the
first error, as the fs.WalkDir loop of build.go does. -/
def foldStatic (st : BuildState) : List ScannedFile → Except (List Char) BuildState
  | [] => .ok st
  | f :: fs =>
    match addStaticFileHandler st f with
    | .error e => .error e
    | .ok st1 => foldStatic st1 fs

/-- Scans a list of static files starting from the empty build state. -/
def processStaticFiles (files : List ScannedFile) : Except (List Char) BuildState :=
  foldStatic { files := [], routes := [] } files

/-- Hash of the bytes a recorded variant decodes to, reconstructed from the
scanned file it came from: the identity variant is the raw bytes, every other
variant is decoded first. -/
def variantSourceHash (f : ScannedFile) (enc : List Char) : List Char :=
  if enc = gs "identity" then f.rawHash else f.decodedHash

/-- Invariant of the static files map relative to the scanned files `seen` so
far: every recorded variant of every entry comes from a scanned file whose
(per-encoding decoded) hash equals the entry's stored identity hash, and each
variant list is sorted by ascending size. -/
def StaticInv (seen : List ScannedFile) (entries : List (List Char × fileInfo)) : Prop :=
  ∀ bp fi, (bp, fi) ∈ entries →
    (∀ v ∈ fi.encodings, ∃ f ∈ seen, f.path = v.path ∧
      variantSourceHash f v.encoding = fi.hash) ∧
    fi.encodings.Pairwise (fun a b => a.size ≤ b.size)

end xtemplate

/-- A hidden static file used as the C3 failing input. -/
def hiddenStaticFile : ScannedFile :=
  { path := gs ".secret.txt", size := 1, modtime := 0, rawHash := gs "hRaw",
    decodedHash := gs "hRaw", decodeOk := true, sniffedContentType := gs "text/plain" }

/-- A `.gz` companion file scanned with no identity sibling present, used for
C4. -/
def orphanGzFile : ScannedFile :=
  { path := gs "style.css.gz", size := 40, modtime := 0, rawHash := gs "hGz",
    decodedHash := gs "hCss", decodeOk := true, sniffedContentType := gs "application/gzip" }

/-- A stored SRI hash has the shape `sha384-` + 64 base64url characters,
71 characters in all; this concrete value is used for the C1 instances. -/
def sriHash71 : List Char := gs "sha384-AAAAAAAAAAAAAAAAAAAAAAAAAAAAAAAAAAAAAAAAAAAAAAAAAAAAAAAAAAAAAAAA"

/-- The 40-character prefix of `sriHash71`. -/
def sriHash71Pre40 : List Char := gs "sha384-AAAAAAAAAAAAAAAAAAAAAAAAAAAAAAAAA"

/-- A concrete identity file for the C9 witness. -/
def exCss : ScannedFile :=
  { path := gs "style.css", size := 100, modtime := 0, rawHash := gs "h0",
    decodedHash := gs "h0", decodeOk := true, sniffedContentType := gs "sniff" }

/-- A concrete matching gzip companion for the C9 witness. -/
def exGz : ScannedFile :=
  { path := gs "style.css.gz", size := 40, modtime := 7, rawHash := gs "hgz",
    decodedHash := gs "h0", decodeOk := true, sniffedContentType := gs "sniffgz" }

/-- The static entry produced by scanning `exCss` then `exGz`: the appended
gzip variant triggered a re-sort, so the smaller gzip variant comes first. -/
def exFi : fileInfo :=
  { hash := gs "h0", contentType := gs "text/css; charset=utf-8",
    encodings := [⟨gs "gzip", gs "style.css.gz", 40, 7⟩,
      ⟨gs "identity", gs "style.css", 100, 0⟩] }

/-- The build state produced by scanning `exCss` then `exGz`. -/
def exSt : xtemplate.BuildState :=
  { files := [(gs "/style.css", exFi)],
    routes := [⟨gs "GET /style.css", HandlerKind.static⟩] }

/-- Go `unicode.IsSpace` restricted to the ASCII whitespace characters
(Unicode space classes beyond ASCII are not modelled). -/
def isSpaceGo (c : Char) : Bool := (gs " \t\n\x0b\x0c\r").contains c

/-- Go `strings.TrimSpace` over ASCII whitespace. -/
def trimSpaceGo (s : List Char) : List Char :=
  dropWhileEndGo isSpaceGo (s.dropWhile isSpaceGo)

/-- Numeric value of a digit string. -/
def digitsToNat (l : List Char) : Nat :=
  l.foldl (fun acc c => acc * 10 + (c.toNat - 48)) 0

/-- An exact rational value num/den with positive denominator, the model of
a parsed q value.  Go compares float64 values; the comparisons against the
0.1 threshold are modelled exactly (float64 rounding is abstracted away), by
cross-multiplication so that they stay kernel-computable. -/
structure Frac where
  num : Int
  den : Int
deriving DecidableEq

/-- The rational value of a parsed q. -/
def Frac.toRat (a : Frac) : ℚ := (a.num : ℚ) / (a.den : ℚ)

/-- Exact test for `a - b > 0.1`, by cross-multiplication. -/
def Frac.gtTenth (a b : Frac) : Bool :=
  decide (10 * (a.num * b.den - b.num * a.den) > a.den * b.den)

/-- Exact test for `|a - b| ≤ 0.1`, by cross-multiplication. -/
def Frac.absLeTenth (a b : Frac) : Bool :=
  decide (10 * |a.num * b.den - b.num * a.den| ≤ a.den * b.den)

/-- Go `strconv.ParseFloat` on the decimal forms sign/digits/fraction/
exponent, modelled with exact rational arithmetic; hexadecimal floats, Inf,
NaN and digit-separating underscores are not modelled and count as parse
failures. -/
def parseFloatGo (s : List Char) : Option Frac :=
  match s with
  | [] => none
  | _ =>
    let (sign, s1) : Int × List Char :=
      match s with
      | '+' :: r => (1, r)
      | '-' :: r => (-1, r)
      | r => (1, r)
    let ip := s1.takeWhile Char.isDigit
    let r1 := s1.dropWhile Char.isDigit
    let (fp, r2) : List Char × List Char :=
      match r1 with
      | '.' :: r => (r.takeWhile Char.isDigit, r.dropWhile Char.isDigit)
      | r => ([], r)
    if ip = [] ∧ fp = [] then none
    else
      let num : Int := sign * ((digitsToNat ip : Int) * 10 ^ fp.length + (digitsToNat fp : Int))
      let den : Int := 10 ^ fp.length
      match r2 with
      | [] => some ⟨num, den⟩
      | e :: r =>
        if e = 'e' ∨ e = 'E' then
          let (epos, r3) : Bool × List Char :=
            match r with
            | '+' :: r4 => (true, r4)
            | '-' :: r4 => (false, r4)
            | r4 => (true, r4)
          let ed := r3.takeWhile Char.isDigit
          let r5 := r3.dropWhile Char.isDigit
          if ed = [] ∨ r5 ≠ [] then none
          else if epos then some ⟨num * 10 ^ digitsToNat ed, den⟩
          else some ⟨num, den * 10 ^ digitsToNat ed⟩
        else none

namespace xtemplate

/-- The q-value loop of negiotiateEncoding (server.go lines 353-364): scan
the parameter parts after the encoding name; the first part of the shape
`q=<number>` that parses sets q, otherwise q stays at the default 1.0. -/
def parseQGo : List (List Char) → Frac
  | [] => ⟨1, 1⟩
  | part :: rest =>
    let part1 := trimSpaceGo part
    if (gs "q=").isPrefixOf part1 then
      match parseFloatGo (trimSpaceGo (trimPrefixGo part1 (gs "q="))) with
      | some parsed => parsed
      | none => parseQGo rest
    else parseQGo rest

/-- Token extraction of negiotiateEncoding (server.go lines 327-336): each
header value is trimmed, empty values are skipped, and the rest are split on
commas. -/
def acceptTokens (acceptHeaders : List (List Char)) : List (List Char) :=
  acceptHeaders.flatMap fun header =>
    let header1 := trimSpaceGo header
    if header1 = [] then [] else splitCharGo ',' header1

/-- Index of the first list element satisfying `p`, as the manual search
loops of negiotiateEncoding compute it. -/
def findIdxGo (p : encodingInfo → Bool) : List encodingInfo → Option Nat
  | [] => none
  | e :: rest => if p e then some 0 else (findIdxGo p rest).map (· + 1)

/-- One token step of negiotiateEncoding (server.go lines 332-373): trim the
token and skip it when empty; take the part before the first semicolon as the
encoding name and skip the token when that encoding is not offered; parse the
q value (default 1.0); replace the current choice exactly when the candidate's
q exceeds the current q by more than 0.1, or the two q values differ by at
most 0.1 and the candidate appears earlier in the offered list. -/
def negotiateStep (encodings : List encodingInfo) (st : Frac × Nat) (tok : List Char) :
    Frac × Nat :=
  let requestedEncoding := trimSpaceGo tok
  if requestedEncoding = [] then st
  else
    let parts := splitCharGo ';' requestedEncoding
    let encpart := trimSpaceGo (parts.headD [])
    match findIdxGo (fun e => decide (e.encoding = encpart)) encodings with
    | none => st
    | some requestedIdx =>
      let q := parseQGo parts.tail
      if q.gtTenth st.1 || (q.absLeTenth st.1 && decide (requestedIdx < st.2)) then
        (q, requestedIdx)
      else st

/-- Model of negiotiateEncoding (server.go lines 299-376, keeping the
source's spelling): an empty variant list is an error; a single variant is
returned directly (with an error flag when it is not identity); otherwise the
scan starts from the identity variant (or the last variant, with an error
flag, when identity is missing) with q = 0 and folds the token step over all
header tokens, returning the variant at the final index. -/
def negiotiateEncoding (acceptHeaders : List (List Char))
    (encodings : List encodingInfo) : Option encodingInfo × Bool :=
  match encodings with
  | [] => (none, true)
  | [e] => (some e, decide (e.encoding ≠ gs "identity"))
  | _ =>
    let start : Bool × Nat :=
      match findIdxGo (fun e => decide (e.encoding = gs "identity")) encodings with
      | some i => (false, i)
      | none => (true, encodings.length - 1)
    let final := (acceptTokens acceptHeaders).foldl (negotiateStep encodings)
      (⟨0, 1⟩, start.2)
    (encodings[final.2]?, start.1)

/-- The claim's description of content negotiation, written from its words:
begin at the identity variant with q = 0, give every offered token its parsed
q (1.0 when absent or unparseable), skip tokens whose encoding is not
offered, and replace the current choice exactly when the candidate's q
exceeds the current one by more than 0.1 or the q values differ by at most
0.1 and the candidate sits earlier in the server's variant order. -/
def claimNegotiate (acceptHeaders : List (List Char))
    (encodings : List encodingInfo) : Option encodingInfo :=
  match findIdxGo (fun e => decide (e.encoding = gs "identity")) encodings with
  | none => none
  | some i =>
    let final := (acceptTokens acceptHeaders).foldl (negotiateStep encodings) (⟨0, 1⟩, i)
    encodings[final.2]?

end xtemplate

/-- The C5 example variant list, in the server's size-ascending order. -/
def exVariants : List encodingInfo :=
  [⟨gs "br", gs "f.br", 30, 0⟩, ⟨gs "gzip", gs "f.gz", 50, 0⟩,
    ⟨gs "identity", gs "f", 100, 0⟩]

/-- A Go error value as classified by the handlers: the ReturnError sentinel,
a HandlerError (identified by an id standing for its ServeHTTP closure), any
other error, or a wrapping of one of these (errors.As unwraps wrappers). -/
inductive GoErr
  | returnError
  | handlerError (id : Nat)
  | other (msg : List Char)
  | wrapped (e : GoErr)
deriving DecidableEq

/-- Model of `errors.As(err, &handlerErr)`: the chain contains a
HandlerError. -/
def isHandlerErrorGo : GoErr → Bool
  | .handlerError _ => true
  | .wrapped e => isHandlerErrorGo e
  | _ => false

/-- The HandlerError found in the chain, when present. -/
def handlerOf : GoErr → Option Nat
  | .handlerError i => some i
  | .wrapped e => handlerOf e
  | _ => none

/-- Model of `errors.As(err, &ReturnError\x7b\x7d)`: the chain contains the
ReturnError sentinel. -/
def isReturnErrorGo : GoErr → Bool
  | .returnError => true
  | .wrapped e => isReturnErrorGo e
  | _ => false

/-- What happened to the per-request transaction. -/
inductive TxAction
  | noTx
  | committed
  | rolledBack
deriving DecidableEq

/-- An HTTP response as far as the handler models observe it: status code,
headers, body. -/
structure HttpResponse where
  status : Nat
  headers : List (List Char × List Char)
  body : List Char
deriving DecidableEq

/-- Go `http.Error`: sets the two standard headers, the status code, and the
message followed by a newline as the body. -/
def httpError (msg : List Char) (status : Nat) : HttpResponse :=
  { status := status,
    headers := [(gs "Content-Type", gs "text/plain; charset=utf-8"),
      (gs "X-Content-Type-Options", gs "nosniff")],
    body := msg ++ [Char.ofNat 10] }

namespace xtemplate

/-- Modelled from the spec: the body of resolvePendingTx is not among the
sources under verification (server.go only calls it).  Per the spec's
PendingTransaction contract and error table, the pending transaction, when
one exists, is finalized exactly once: committed when the template outcome is
success (nil error), rolled back otherwise; a failed commit surfaces as an
error. -/
def resolvePendingTx (txPending commitOk : Bool) (err : Option GoErr) :
    Option GoErr × TxAction :=
  if !txPending then (err, .noTx)
  else
    match err with
    | some e => (some e, .rolledBack)
    | none =>
        if commitOk then (none, .committed)
        else (some (.other (gs "commit failed")), .committed)

/-- Initial response context of the buffered handler (server.go lines
142-145): status 200 and an empty header map, so the stored status is 200
when SetStatus is never called during execution. -/
def initialResponseStatus : Nat := 200

/-- Outcome of the buffered handler: either a committed HTTP response or a
delegation to a HandlerError's own ServeHTTP; both record what happened to
the pending transaction. -/
inductive BufferedOutcome
  | response (resp : HttpResponse) (tx : TxAction)
  | delegated (handler : Nat) (tx : TxAction)
deriving DecidableEq

/-- Model of bufferingTemplateHandler (server.go lines 118-171).  Template
execution is I/O, so its observable results are inputs: the returned error,
the bytes accumulated in the pooled buffer, the status and headers recorded
on the dot's response context, whether a transaction is pending, and whether
its commit would succeed.  A HandlerError delegates after finalizing the
transaction on the nil path; a ReturnError is cleared; any remaining error
after finalization yields 500 with the fixed error body; otherwise the
recorded headers, status and buffered body are written. -/
def bufferingTemplateHandler (execErr : Option GoErr) (buf : List Char)
    (status : Nat) (headers : List (List Char × List Char))
    (txPending commitOk : Bool) : BufferedOutcome :=
  let isH := match execErr with
    | some e => isHandlerErrorGo e
    | none => false
  if isH then
    let txr := (resolvePendingTx txPending commitOk none).2
    .delegated ((execErr.bind handlerOf).getD 0) txr
  else
    let err1 := match execErr with
      | some e => if isReturnErrorGo e then none else some e
      | none => none
    match resolvePendingTx txPending commitOk err1 with
    | (some _, tx) => .response (httpError (gs "internal server error") 500) tx
    | (none, tx) => .response ⟨status, headers, buf⟩ tx

/-- Outcome of the streaming handler's gate section: an early error response
before any template execution, or execution with the SSE headers already
set. -/
inductive FlushOutcome
  | earlyError (resp : HttpResponse)
  | streamed (headersSet : List (List Char × List Char))
deriving DecidableEq

/-- The three headers the streaming handler sets before executing
(server.go lines 188-190). -/
def sseHeaders : List (List Char × List Char) :=
  [(gs "Content-Type", gs "text/event-stream"),
   (gs "Cache-Control", gs "no-cache"),
   (gs "Connection", gs "keep-alive")]

/-- Model of the gate section of flushingTemplateHandler (server.go lines
173-214): requests whose Accept header is not exactly `text/event-stream`
get 406 before any template execution; response writers that cannot flush
get 500; otherwise the three SSE headers are set and execution proceeds. -/
def flushingTemplateHandler (accept : List Char) (flusherOk : Bool) : FlushOutcome :=
  if accept ≠ gs "text/event-stream" then .earlyError (httpError (gs "SSE endpoint") 406)
  else if ¬flusherOk = true then .earlyError (httpError (gs "internal server error") 500)
  else .streamed sseHeaders

/-- Outcome of Instance.ServeHTTP: an early stop before route lookup, or a
dispatch of the routed handler. -/
inductive ServeOutcome
  | stopped (resp : HttpResponse)
  | dispatched (pattern : List Char)
deriving DecidableEq

/-- Model of ServeHTTP (instance.go lines 193-200 and server.go lines
58-66): a non-blocking poll of the cancellation context; once the context is
cancelled the handler sends http.Error(w, "server stopped", 500) and returns
before consulting the router, otherwise the router's handler for the request
is invoked. -/
def serveHTTP (cancelled : Bool) (routedPattern : List Char) : ServeOutcome :=
  if cancelled then .stopped (httpError (gs "server stopped") 500)
  else .dispatched routedPattern

end xtemplate

/-- C3 (code bug, failing input `.secret.txt`): addStaticFileHandler performs
no hidden-file test, so the hidden static file `.secret.txt` is recorded AND
the route `GET /.secret.txt` is registered, although the README states that
hidden files are loaded but never added to the ServeMux.  Hidden template
files, by contrast, behave as claimed: `.hidden.html` is added to the shared
namespace under its cleaned path — hence invokable by name — yet registers no
route. -/
theorem C3_hidden_files :
    ((xtemplate.processStaticFiles [hiddenStaticFile]).toOption.map
        (fun st => st.routes)) = some [⟨gs "GET /.secret.txt", HandlerKind.static⟩] ∧
    (xtemplate.addTemplateHandler (gs ".html") (gs ".hidden.html") []).2 = [] ∧
    gs "/.hidden.html" ∈ (xtemplate.addTemplateHandler (gs ".html") (gs ".hidden.html") []).1 := by
  decide

/-- C4 counterexample: scanning `style.css.gz` with no identity entry under
`/style.css` does NOT fail the build — it succeeds and registers the file as
its own identity at `GET /style.css.gz`, refuting the claim that the build
fails with an error. -/
theorem C4_counterexample :
    (xtemplate.processStaticFiles [orphanGzFile]).toOption.map (fun st => st.routes) =
      some [⟨gs "GET /style.css.gz", HandlerKind.static⟩] := by
  decide

/-- C4 (amended): a static file whose name carries a recognized compression
suffix but for which no identity entry exists under the stripped path when it
is scanned is treated as its own identity: the build continues, the raw bytes
are hashed, and a GET route is registered at the full cleaned path with the
compression extension retained. -/
theorem C4_orphan_companion (st : xtemplate.BuildState) (f : ScannedFile)
    (hnone : xtemplate.assocGet
        (trimSuffixGo (pathCleanGo ('/' :: f.path)) (extGo f.path)) st.files = none) :
    xtemplate.addStaticFileHandler st f = .ok
      ⟨xtemplate.assocSet (pathCleanGo ('/' :: f.path))
          ⟨f.rawHash, contentTypeFor (extGo f.path) f.sniffedContentType,
            [⟨gs "identity", f.path, f.size, f.modtime⟩]⟩ st.files,
        st.routes ++ [⟨gs "GET " ++ pathCleanGo ('/' :: f.path),
          HandlerKind.static⟩]⟩ := by
  unfold xtemplate.addStaticFileHandler
  dsimp only
  rw [hnone]

/-- C4 witness: the orphan companion `style.css.gz` scanned into the empty
state succeeds. -/
theorem C4_orphan_companion_witness :
    (xtemplate.addStaticFileHandler ⟨[], []⟩ orphanGzFile).toOption.isSome = true := by
  rw [C4_orphan_companion ⟨[], []⟩ orphanGzFile (by decide)]
  rfl

/-- C2 counterexample: the file `a/b/index.html` registers the route
`GET /a/b` — Go's path.Dir leaves no trailing slash — and not the claimed
`GET /a/b/`. -/
theorem C2_counterexample :
    xtemplate.templateFileRoute (gs ".html") (gs "a/b/index.html") = some (gs "GET /a/b") ∧
    some (gs "GET /a/b") ≠ some (gs "GET /a/b/") := by decide

/-- C2 (amended): routes derived from template file paths strip the template
extension, and a basename of `index` is replaced by its parent directory
without a trailing slash: `a/b/index.html` yields `GET /a/b`, `a/b.html`
yields `GET /a/b`, and the root `index.html` yields `GET /\x7b$\x7d` (the
anchor is appended exactly when the derived path ends in a slash, which
happens at the root); consequently no registered file route ever ends in a
slash. -/
theorem C2_route_derivation :
    xtemplate.templateFileRoute (gs ".html") (gs "a/b/index.html") = some (gs "GET /a/b") ∧
    xtemplate.templateFileRoute (gs ".html") (gs "a/b.html") = some (gs "GET /a/b") ∧
    xtemplate.templateFileRoute (gs ".html") (gs "index.html") = some (gs "GET /\x7b$\x7d") ∧
    ∀ ext p r, xtemplate.templateFileRoute ext p = some r → r.getLast? ≠ some '/' := by
  have key : ∀ x : List Char,
      (gs "GET " ++ (if (gs "/").isSuffixOf x then x ++ gs "\x7b$\x7d" else x)).getLast? ≠
        some '/' := by
    intro x
    by_cases hs : (gs "/").isSuffixOf x = true
    · rw [if_pos hs, ← List.append_assoc,
        List.getLast?_append_of_ne_nil _ (by simp [gs])]
      decide
    · rw [if_neg hs]
      intro hlast
      apply hs
      rw [List.isSuffixOf_iff_suffix]
      cases x with
      | nil =>
          simp only [List.append_nil] at hlast
          exact absurd hlast (by decide)
      | cons a l =>
          rw [List.getLast?_append_of_ne_nil _ (by simp)] at hlast
          obtain ⟨t, ht⟩ := List.getLast?_eq_some_iff.mp hlast
          exact ⟨t, ht.symm⟩
  refine ⟨by decide, by decide, by decide, ?_⟩
  intro ext p r hr
  unfold xtemplate.templateFileRoute at hr
  by_cases hh : xtemplate.isHiddenPath (pathCleanGo ('/' :: p)) = true
  · simp [hh] at hr
  · simp only [Bool.not_eq_true] at hh
    simp only [hh, Bool.false_eq_true, if_false, Option.some.injEq] at hr
    subst hr
    unfold xtemplate.templateRoutePathForFile
    exact key _

/-- C1 counterexample: supplying the full 71-character stored hash as the
`?hash=` value makes the handler serve the file, yet zero (not at least 40)
characters of the stored hash remain after removing that prefix, so the claim
as stated is false. -/
theorem C1_counterexample :
    xtemplate.staticHashServes sriHash71 sriHash71 = true ∧
    ¬(40 ≤ sriHash71.length - sriHash71.length) := by decide

/-- C1 (amended): for a stored 71-character SRI hash and a non-empty `?hash=`
query value, the static handler serves the file iff the supplied value is a
prefix of the stored hash and is at least 40 characters long — equivalently,
at most 31 characters of the stored hash remain after removing the prefix;
otherwise it responds 404. -/
theorem C1_hash_gate (storedHash queryhash : List Char)
    (hlen : storedHash.length = 71) (hne : queryhash ≠ []) :
    xtemplate.staticHashServes storedHash queryhash = true ↔
      (queryhash.isPrefixOf storedHash = true ∧ 40 ≤ queryhash.length) := by
  have hq : queryhash.isEmpty = false := by
    cases queryhash with
    | nil => exact absurd rfl hne
    | cons a l => rfl
  have hserve : xtemplate.staticHashServes storedHash queryhash = true ↔
      (trimPrefixGo storedHash queryhash).length ≤ 31 := by
    simp [xtemplate.staticHashServes, xtemplate.staticHashRejects, hq, Nat.not_lt]
  rw [hserve]
  unfold trimPrefixGo
  cases hp : queryhash.isPrefixOf storedHash with
  | true =>
      have hple : queryhash.length ≤ storedHash.length :=
        (List.isPrefixOf_iff_prefix.mp hp).length_le
      rw [if_pos rfl, List.length_drop]
      constructor
      · intro h
        exact ⟨rfl, by omega⟩
      · intro ⟨_, h40⟩
        omega
  | false =>
      rw [if_neg (by simp)]
      constructor
      · intro h
        exact absurd h (by omega)
      · intro ⟨hpre, _⟩
        exact absurd hpre Bool.false_ne_true

/-- C1 witness: the 40-character prefix of a concrete 71-character stored hash
passes the gate. -/
theorem C1_hash_gate_witness :
    xtemplate.staticHashServes sriHash71 sriHash71Pre40 = true :=
  (C1_hash_gate sriHash71 sriHash71Pre40 (by decide) (by decide)).mpr
    (by decide)

/-- Membership in the insertion step of the size sort. -/
theorem mem_insertBySize {v e : encodingInfo} {l : List encodingInfo} :
    v ∈ xtemplate.insertBySize e l ↔ v = e ∨ v ∈ l := by
  induction l with
  | nil => simp [xtemplate.insertBySize]
  | cons x xs ih =>
      by_cases h : e.size ≤ x.size
      · simp only [xtemplate.insertBySize, if_pos h, List.mem_cons]
      · simp only [xtemplate.insertBySize, if_neg h, List.mem_cons, ih]
        tauto

/-- The insertion step of the size sort preserves sortedness. -/
theorem sorted_insertBySize {e : encodingInfo} {l : List encodingInfo}
    (h : l.Pairwise (fun a b => a.size ≤ b.size)) :
    (xtemplate.insertBySize e l).Pairwise (fun a b => a.size ≤ b.size) := by
  induction l with
  | nil => simp [xtemplate.insertBySize]
  | cons x xs ih =>
      rw [List.pairwise_cons] at h
      obtain ⟨hx, hxs⟩ := h
      by_cases hle : e.size ≤ x.size
      · rw [show xtemplate.insertBySize e (x :: xs) = e :: x :: xs by
          simp [xtemplate.insertBySize, hle]]
        refine List.Pairwise.cons ?_ (List.Pairwise.cons hx hxs)
        intro b hb
        rcases List.mem_cons.mp hb with rfl | hb
        · exact hle
        · exact le_trans hle (hx b hb)
      · rw [show xtemplate.insertBySize e (x :: xs) = x :: xtemplate.insertBySize e xs by
          simp [xtemplate.insertBySize, hle]]
        refine List.Pairwise.cons ?_ (ih hxs)
        intro b hb
        rcases mem_insertBySize.mp hb with rfl | hb
        · exact le_of_not_le hle
        · exact hx b hb

/-- Sorting by size neither adds nor removes variants. -/
theorem mem_sortBySize {v : encodingInfo} {l : List encodingInfo} :
    v ∈ xtemplate.sortBySize l ↔ v ∈ l := by
  induction l with
  | nil => simp [xtemplate.sortBySize]
  | cons x xs ih =>
      simp only [xtemplate.sortBySize, mem_insertBySize, ih, List.mem_cons]

/-- The size sort produces a list sorted by ascending size. -/
theorem sorted_sortBySize (l : List encodingInfo) :
    (xtemplate.sortBySize l).Pairwise (fun a b => a.size ≤ b.size) := by
  induction l with
  | nil => simp [xtemplate.sortBySize]
  | cons x xs ih => exact sorted_insertBySize ih

/-- A successful lookup in the files map locates a member. -/
theorem assocGet_mem {k : List Char} {l : List (List Char × fileInfo)} {v : fileInfo}
    (h : xtemplate.assocGet k l = some v) : (k, v) ∈ l := by
  induction l with
  | nil => simp [xtemplate.assocGet] at h
  | cons p rest ih =>
      obtain ⟨k1, v1⟩ := p
      simp only [xtemplate.assocGet] at h
      by_cases hk : k1 = k
      · rw [if_pos hk] at h
        have hv := Option.some.inj h
        subst hv
        subst hk
        exact List.mem_cons_self _ _
      · rw [if_neg hk] at h
        exact List.mem_cons_of_mem _ (ih h)

/-- Every member of an updated files map is the new pair or an old member. -/
theorem mem_assocSet {k : List Char} {v : fileInfo} {l : List (List Char × fileInfo)}
    {p : List Char × fileInfo} (h : p ∈ xtemplate.assocSet k v l) :
    p = (k, v) ∨ p ∈ l := by
  induction l with
  | nil => simpa [xtemplate.assocSet] using h
  | cons q rest ih =>
      obtain ⟨k1, v1⟩ := q
      simp only [xtemplate.assocSet] at h
      by_cases hk : k1 = k
      · rw [if_pos hk] at h
        rcases List.mem_cons.mp h with rfl | h
        · exact Or.inl rfl
        · exact Or.inr (List.mem_cons_of_mem _ h)
      · rw [if_neg hk] at h
        rcases List.mem_cons.mp h with rfl | h
        · exact Or.inr (List.mem_cons_self _ _)
        · rcases ih h with h | h
          · exact Or.inl h
          · exact Or.inr (List.mem_cons_of_mem _ h)

/-- The invariant is monotone in the set of scanned files. -/
theorem StaticInv_mono {seen seen' : List ScannedFile}
    {entries : List (List Char × fileInfo)}
    (hsub : ∀ f, f ∈ seen → f ∈ seen') (h : xtemplate.StaticInv seen entries) :
    xtemplate.StaticInv seen' entries := by
  intro bp fi hm
  obtain ⟨h1, h2⟩ := h bp fi hm
  refine ⟨fun v hv => ?_, h2⟩
  obtain ⟨f, hf, hp, hh⟩ := h1 v hv
  exact ⟨f, hsub f hf, hp, hh⟩

/-- Inserting a fresh identity entry for a scanned file preserves the
invariant. -/
theorem StaticInv_insert_identity {seen : List ScannedFile}
    {entries : List (List Char × fileInfo)} (f : ScannedFile) (k ct : List Char)
    (hinv : xtemplate.StaticInv seen entries) :
    xtemplate.StaticInv (f :: seen)
      (xtemplate.assocSet k
        ⟨f.rawHash, ct, [⟨gs "identity", f.path, f.size, f.modtime⟩]⟩ entries) := by
  intro bp fi hm
  rcases mem_assocSet hm with heq | hm'
  · injection heq with hbp hfi
    subst hbp
    subst hfi
    constructor
    · intro v hv
      rw [List.mem_singleton] at hv
      subst hv
      exact ⟨f, List.mem_cons_self _ _, rfl, by simp [xtemplate.variantSourceHash]⟩
    · simp
  · obtain ⟨h1, h2⟩ := hinv bp fi hm'
    refine ⟨fun v hv => ?_, h2⟩
    obtain ⟨g, hg, hp, hh⟩ := h1 v hv
    exact ⟨g, List.mem_cons_of_mem _ hg, hp, hh⟩

/-- One scanner step preserves the invariant, adding the scanned file to the
seen set. -/
theorem StaticInv_step {seen : List ScannedFile} {st : xtemplate.BuildState}
    {f : ScannedFile} {st' : xtemplate.BuildState}
    (hinv : xtemplate.StaticInv seen st.files)
    (h : xtemplate.addStaticFileHandler st f = .ok st') :
    xtemplate.StaticInv (f :: seen) st'.files := by
  unfold xtemplate.addStaticFileHandler at h
  dsimp only at h
  cases hget : xtemplate.assocGet (trimSuffixGo (pathCleanGo ('/' :: f.path)) (extGo f.path))
      st.files with
  | none =>
      rw [hget] at h
      injection h with h'
      subst h'
      exact StaticInv_insert_identity f _ _ hinv
  | some file =>
      rw [hget] at h
      dsimp only at h
      by_cases hz : (xtemplate.encodingForExt (extGo f.path) = gs "gzip" ∨
          xtemplate.encodingForExt (extGo f.path) = gs "zstd") ∧ ¬f.decodeOk = true
      · rw [if_pos hz] at h
        cases h
      · rw [if_neg hz] at h
        by_cases hid : xtemplate.encodingForExt (extGo f.path) = gs "identity"
        · rw [if_pos hid] at h
          injection h with h'
          subst h'
          exact StaticInv_insert_identity f _ _ hinv
        · rw [if_neg hid] at h
          by_cases hmis : file.hash ≠ f.decodedHash
          · rw [if_pos hmis] at h
            cases h
          · rw [if_neg hmis] at h
            injection h with h'
            subst h'
            push_neg at hmis
            have hold := hinv _ _ (assocGet_mem hget)
            intro bp fi hm
            rcases mem_assocSet hm with heq | hm'
            · injection heq with hbp hfi
              subst hbp
              subst hfi
              constructor
              · intro v hv
                rw [mem_sortBySize] at hv
                rcases List.mem_append.mp hv with hv | hv
                · obtain ⟨g, hg, hp, hh⟩ := hold.1 v hv
                  exact ⟨g, List.mem_cons_of_mem _ hg, hp, hh⟩
                · rw [List.mem_singleton] at hv
                  subst hv
                  refine ⟨f, List.mem_cons_self _ _, rfl, ?_⟩
                  simp only [xtemplate.variantSourceHash, if_neg hid]
                  exact hmis.symm
              · exact sorted_sortBySize _
            · obtain ⟨h1, h2⟩ := hinv bp fi hm'
              refine ⟨fun v hv => ?_, h2⟩
              obtain ⟨g, hg, hp, hh⟩ := h1 v hv
              exact ⟨g, List.mem_cons_of_mem _ hg, hp, hh⟩

/-- Folding the scanner preserves the invariant. -/
theorem StaticInv_fold {fs : List ScannedFile} : ∀ {seen : List ScannedFile}
    {st st' : xtemplate.BuildState}, xtemplate.StaticInv seen st.files →
    xtemplate.foldStatic st fs = .ok st' →
    xtemplate.StaticInv (seen ++ fs) st'.files := by
  induction fs with
  | nil =>
      intro seen st st' hinv h
      injection h with h'
      subst h'
      simpa using hinv
  | cons f fs ih =>
      intro seen st st' hinv h
      unfold xtemplate.foldStatic at h
      cases hstep : xtemplate.addStaticFileHandler st f with
      | error e =>
          rw [hstep] at h
          cases h
      | ok st1 =>
          rw [hstep] at h
          have h1 := StaticInv_step hinv hstep
          have h2 := ih h1 h
          refine StaticInv_mono ?_ h2
          intro g hg
          simp only [List.cons_append, List.mem_cons, List.mem_append] at hg ⊢
          tauto

/-- C9: after a successful build, every recorded encoding variant of every
static entry comes from a scanned file whose decoded bytes hash to the
entry's stored identity hash, and every variant list is sorted by ascending
size; moreover a companion file whose decoded hash differs from the stored
identity hash makes the build step fail with an error. -/
theorem C9_static_invariant :
    (∀ files st, xtemplate.processStaticFiles files = .ok st →
      ∀ bp fi, (bp, fi) ∈ st.files →
        (∀ v ∈ fi.encodings, ∃ f ∈ files, f.path = v.path ∧
          xtemplate.variantSourceHash f v.encoding = fi.hash) ∧
        fi.encodings.Pairwise (fun a b => a.size ≤ b.size)) ∧
    (∀ st (f : ScannedFile) fi, xtemplate.assocGet
        (trimSuffixGo (pathCleanGo ('/' :: f.path)) (extGo f.path)) st.files = some fi →
      xtemplate.encodingForExt (extGo f.path) ≠ gs "identity" →
      fi.hash ≠ f.decodedHash → f.decodeOk = true →
      ∃ e, xtemplate.addStaticFileHandler st f = .error e) := by
  constructor
  · intro files st h
    have h0 : xtemplate.StaticInv [] (xtemplate.BuildState.files ⟨[], []⟩) := by
      intro bp fi hm
      simp at hm
    simpa using StaticInv_fold h0 h
  · intro st f fi hget hid hmis hok
    refine ⟨gs "encoded file contents did not match original file", ?_⟩
    unfold xtemplate.addStaticFileHandler
    dsimp only
    rw [hget]
    dsimp only
    rw [if_neg (by simp [hok])]
    rw [if_neg hid]
    rw [if_pos hmis]

/-- C9 witness: the invariant instantiated at a concrete successful build of
an identity file and its matching gzip companion. -/
theorem C9_static_invariant_witness :
    (∀ v ∈ exFi.encodings, ∃ f ∈ [exCss, exGz], f.path = v.path ∧
      xtemplate.variantSourceHash f v.encoding = exFi.hash) ∧
    exFi.encodings.Pairwise (fun a b => a.size ≤ b.size) :=
  C9_static_invariant.1 [exCss, exGz] exSt (by rfl) (gs "/style.css") exFi
    (by decide)

/-- A found index is within bounds. -/
theorem findIdxGo_lt_length {p : encodingInfo → Bool} {l : List encodingInfo} {i : Nat}
    (h : xtemplate.findIdxGo p l = some i) : i < l.length := by
  induction l generalizing i with
  | nil => simp [xtemplate.findIdxGo] at h
  | cons e rest ih =>
      simp only [xtemplate.findIdxGo] at h
      by_cases hp : p e = true
      · rw [if_pos hp] at h
        have := Option.some.inj h
        simp [← this]
      · rw [if_neg hp] at h
        cases hr : xtemplate.findIdxGo p rest with
        | none => rw [hr] at h; simp at h
        | some j =>
            rw [hr] at h
            simp only [Option.map_some'] at h
            have hj := ih hr
            have := Option.some.inj h
            simp only [List.length_cons]
            omega

/-- A satisfied element yields a found index. -/
theorem findIdxGo_isSome {p : encodingInfo → Bool} {l : List encodingInfo}
    (h : ∃ x ∈ l, p x = true) : ∃ i, xtemplate.findIdxGo p l = some i := by
  induction l with
  | nil => simp at h
  | cons e rest ih =>
      simp only [xtemplate.findIdxGo]
      by_cases hp : p e = true
      · exact ⟨0, by rw [if_pos hp]⟩
      · rw [if_neg hp]
        obtain ⟨x, hx, hpx⟩ := h
        rcases List.mem_cons.mp hx with rfl | hx
        · exact absurd hpx hp
        · obtain ⟨i, hi⟩ := ih ⟨x, hx, hpx⟩
          exact ⟨i + 1, by rw [hi]; rfl⟩

/-- The token step keeps the current index within bounds. -/
theorem negotiateStep_snd_lt {encs : List encodingInfo} {st : Frac × Nat}
    {tok : List Char} (h : st.2 < encs.length) :
    (xtemplate.negotiateStep encs st tok).2 < encs.length := by
  unfold xtemplate.negotiateStep
  dsimp only
  by_cases he : trimSpaceGo tok = []
  · rw [if_pos he]
    exact h
  · rw [if_neg he]
    cases hf : xtemplate.findIdxGo
        (fun e => decide (e.encoding =
          trimSpaceGo ((splitCharGo ';' (trimSpaceGo tok)).headD []))) encs with
    | none => exact h
    | some i =>
        have hi := findIdxGo_lt_length hf
        dsimp only
        by_cases hrep : ((xtemplate.parseQGo (splitCharGo ';' (trimSpaceGo tok)).tail).gtTenth st.1 ||
            ((xtemplate.parseQGo (splitCharGo ';' (trimSpaceGo tok)).tail).absLeTenth st.1 &&
              decide (i < st.2))) = true
        · rw [if_pos hrep]
          exact hi
        · rw [if_neg hrep]
          exact h

/-- Folding the token step keeps the current index within bounds. -/
theorem foldl_negotiateStep_snd_lt {encs : List encodingInfo}
    {toks : List (List Char)} : ∀ {st : Frac × Nat}, st.2 < encs.length →
    (toks.foldl (xtemplate.negotiateStep encs) st).2 < encs.length := by
  induction toks with
  | nil => intro st h; exact h
  | cons t ts ih =>
      intro st h
      rw [List.foldl_cons]
      exact ih (negotiateStep_snd_lt h)

/-- C5: whenever the identity encoding is among the offered variants, the
source's negotiation returns, without error, exactly the claim's procedure:
start from the identity variant with q = 0, give each offered token its
parsed q (1.0 by default), skip unoffered tokens, and replace the current
choice exactly when the candidate's q exceeds the current one by more than
0.1 or the q values differ by at most 0.1 and the candidate appears earlier
in the size-ascending variant order; in particular the header
`gzip;q=0, br;q=1` over the variants br, gzip, identity selects br. -/
theorem C5_negotiation :
    (∀ a b : Frac, 0 < a.den → 0 < b.den →
      (Frac.gtTenth a b = true ↔ a.toRat - b.toRat > 1/10)) ∧
    (∀ a b : Frac, 0 < a.den → 0 < b.den →
      (Frac.absLeTenth a b = true ↔ |a.toRat - b.toRat| ≤ 1/10)) ∧
    (∀ acceptHeaders encodings,
      gs "identity" ∈ encodings.map encodingInfo.encoding →
      xtemplate.negiotiateEncoding acceptHeaders encodings =
        (xtemplate.claimNegotiate acceptHeaders encodings, false)) ∧
    (xtemplate.negiotiateEncoding [gs "gzip;q=0, br;q=1"] exVariants).1 =
      some ⟨gs "br", gs "f.br", 30, 0⟩ := by
  have hsub : ∀ a b : Frac, 0 < a.den → 0 < b.den →
      a.toRat - b.toRat =
        ((a.num * b.den - b.num * a.den : Int) : ℚ) / ((a.den * b.den : Int) : ℚ) := by
    intro a b ha hb
    have ha' : ((a.den : ℚ)) ≠ 0 := by
      exact_mod_cast Int.ne_of_gt ha
    have hb' : ((b.den : ℚ)) ≠ 0 := by
      exact_mod_cast Int.ne_of_gt hb
    unfold Frac.toRat
    push_cast
    field_simp
    ring
  have hdenpos : ∀ a b : Frac, 0 < a.den → 0 < b.den →
      (0 : ℚ) < ((a.den * b.den : Int) : ℚ) := by
    intro a b ha hb
    exact_mod_cast mul_pos ha hb
  refine ⟨?_, ?_, ?_, ?_⟩
  · intro a b ha hb
    have hD := hdenpos a b ha hb
    rw [Frac.gtTenth, decide_eq_true_eq, hsub a b ha hb, gt_iff_lt, gt_iff_lt,
      lt_div_iff₀ hD]
    constructor
    · intro h
      have hQ : ((a.den * b.den : Int) : ℚ) < ((10 * (a.num * b.den - b.num * a.den) : Int) : ℚ) := by
        exact_mod_cast h
      push_cast at hQ ⊢
      linarith
    · intro h
      have hQ : ((a.den * b.den : Int) : ℚ) < ((10 * (a.num * b.den - b.num * a.den) : Int) : ℚ) := by
        push_cast at h ⊢
        linarith
      exact_mod_cast hQ
  · intro a b ha hb
    have hD := hdenpos a b ha hb
    rw [Frac.absLeTenth, decide_eq_true_eq, hsub a b ha hb, abs_div,
      abs_of_pos hD, div_le_iff₀ hD]
    constructor
    · intro h
      have hQ : ((10 * |a.num * b.den - b.num * a.den| : Int) : ℚ) ≤ ((a.den * b.den : Int) : ℚ) := by
        exact_mod_cast h
      push_cast at hQ ⊢
      linarith
    · intro h
      have hQ : ((10 * |a.num * b.den - b.num * a.den| : Int) : ℚ) ≤ ((a.den * b.den : Int) : ℚ) := by
        push_cast at h ⊢
        linarith
      exact_mod_cast hQ
  · intro acceptHeaders encodings hid
    rcases encodings with _ | ⟨e1, _ | ⟨e2, rest⟩⟩
    · simp at hid
    · have hident : e1.encoding = gs "identity" := by
        simp only [List.map_cons, List.map_nil, List.mem_singleton] at hid
        exact hid.symm
      have hfind : xtemplate.findIdxGo
          (fun e => decide (e.encoding = gs "identity")) [e1] = some 0 := by
        simp [xtemplate.findIdxGo, hident]
      have hfinal : ((xtemplate.acceptTokens acceptHeaders).foldl
          (xtemplate.negotiateStep [e1]) (⟨0, 1⟩, 0)).2 < 1 := by
        simpa using @foldl_negotiateStep_snd_lt [e1]
          (xtemplate.acceptTokens acceptHeaders) (⟨0, 1⟩, 0) (by simp)
      have h0 : ((xtemplate.acceptTokens acceptHeaders).foldl
          (xtemplate.negotiateStep [e1]) (⟨0, 1⟩, 0)).2 = 0 := Nat.lt_one_iff.mp hfinal
      unfold xtemplate.negiotiateEncoding xtemplate.claimNegotiate
      rw [hfind]
      dsimp only
      simp only [Prod.mk.injEq]
      constructor
      · rw [h0]
        rfl
      · simp [hident]
    · have hex : ∃ x ∈ e1 :: e2 :: rest,
          (fun e => decide (e.encoding = gs "identity")) x = true := by
        rw [List.mem_map] at hid
        obtain ⟨x, hx, hxe⟩ := hid
        exact ⟨x, hx, by simp [hxe]⟩
      obtain ⟨i, hi⟩ := findIdxGo_isSome hex
      unfold xtemplate.negiotiateEncoding xtemplate.claimNegotiate
      rw [hi]
  · decide

/-- C5 witness: the identity-containing example variant list instantiates the
equivalence between the source negotiation and the claim's procedure. -/
theorem C5_negotiation_witness :
    xtemplate.negiotiateEncoding [gs "gzip;q=0, br;q=1"] exVariants =
      (xtemplate.claimNegotiate [gs "gzip;q=0, br;q=1"] exVariants, false) :=
  C5_negotiation.2.2.1 [gs "gzip;q=0, br;q=1"] exVariants (by decide)

/-- A chain wrapping the ReturnError sentinel never also carries a
HandlerError. -/
theorem isReturn_not_handler (e : GoErr) (h : isReturnErrorGo e = true) :
    isHandlerErrorGo e = false := by
  induction e with
  | returnError => rfl
  | handlerError i => cases h
  | other msg => cases h
  | wrapped e ih => exact ih h

/-- C6: when template execution returns an error that neither is nor wraps
the ReturnError or HandlerError sentinels, the buffered handler rolls back
the pending transaction and responds 500 with the fixed error body; none of
the buffered template output reaches the response. -/
theorem C6_buffered_error (execErr : GoErr) (buf : List Char) (status : Nat)
    (headers : List (List Char × List Char)) (commitOk : Bool)
    (hH : isHandlerErrorGo execErr = false) (hR : isReturnErrorGo execErr = false) :
    xtemplate.bufferingTemplateHandler (some execErr) buf status headers true commitOk =
      .response (httpError (gs "internal server error") 500) .rolledBack := by
  unfold xtemplate.bufferingTemplateHandler
  dsimp only
  rw [hH]
  rw [if_neg (by simp)]
  rw [hR]
  rfl

/-- C6 witness: a plain error with a pending transaction yields rollback and
a 500 response discarding the buffered body. -/
theorem C6_buffered_error_witness :
    xtemplate.bufferingTemplateHandler (some (.other (gs "boom"))) (gs "partial output")
        200 [] true true =
      .response (httpError (gs "internal server error") 500) .rolledBack :=
  C6_buffered_error (.other (gs "boom")) (gs "partial output") 200 [] true rfl rfl

/-- C7: when template execution returns nil or an error wrapping the
ReturnError sentinel, and the commit succeeds when a transaction is pending,
the buffered handler commits the transaction and writes the recorded headers,
the stored status (which starts at 200 until SetStatus is called) and the
buffered body. -/
theorem C7_buffered_commit (execErr : Option GoErr) (buf : List Char) (status : Nat)
    (headers : List (List Char × List Char)) (txPending commitOk : Bool)
    (hsucc : execErr = none ∨ ∃ e, execErr = some e ∧ isReturnErrorGo e = true)
    (hcommit : txPending = true → commitOk = true) :
    xtemplate.bufferingTemplateHandler execErr buf status headers txPending commitOk =
      .response ⟨status, headers, buf⟩ (if txPending then .committed else .noTx) ∧
    xtemplate.initialResponseStatus = 200 := by
  refine ⟨?_, rfl⟩
  unfold xtemplate.bufferingTemplateHandler
  rcases hsucc with rfl | ⟨e, rfl, hR⟩
  · dsimp only
    rw [if_neg (by simp)]
    cases htx : txPending with
    | false => rfl
    | true =>
        have hc := hcommit htx
        subst hc
        rfl
  · have hH := isReturn_not_handler e hR
    dsimp only
    rw [hH]
    rw [if_neg (by simp)]
    rw [hR]
    cases htx : txPending with
    | false => rfl
    | true =>
        have hc := hcommit htx
        subst hc
        rfl

/-- C7 witness: a wrapped ReturnError with a pending transaction whose commit
succeeds writes the recorded status, headers and body. -/
theorem C7_buffered_commit_witness :
    xtemplate.bufferingTemplateHandler (some (.wrapped .returnError)) (gs "hello") 204
        [(gs "X-Custom", gs "y")] true true =
      .response ⟨204, [(gs "X-Custom", gs "y")], gs "hello"⟩
        (if true then .committed else .noTx) ∧
    xtemplate.initialResponseStatus = 200 :=
  C7_buffered_commit (some (.wrapped .returnError)) (gs "hello") 204
    [(gs "X-Custom", gs "y")] true true
    (Or.inr ⟨.wrapped .returnError, rfl, rfl⟩) (fun _ => rfl)

/-- C8: the streaming handler rejects requests whose Accept header is not
exactly `text/event-stream` with 406 before executing, responds 500 when the
response writer cannot flush, and otherwise sets Content-Type,
Cache-Control and Connection before executing the template. -/
theorem C8_sse_gate (accept : List Char) (flusherOk : Bool) :
    (accept ≠ gs "text/event-stream" →
      xtemplate.flushingTemplateHandler accept flusherOk =
        .earlyError (httpError (gs "SSE endpoint") 406)) ∧
    (accept = gs "text/event-stream" → flusherOk = false →
      xtemplate.flushingTemplateHandler accept flusherOk =
        .earlyError (httpError (gs "internal server error") 500)) ∧
    (accept = gs "text/event-stream" → flusherOk = true →
      xtemplate.flushingTemplateHandler accept flusherOk =
        .streamed xtemplate.sseHeaders) := by
  refine ⟨?_, ?_, ?_⟩
  · intro hne
    unfold xtemplate.flushingTemplateHandler
    rw [if_pos hne]
  · intro heq hf
    subst heq
    subst hf
    rfl
  · intro heq hf
    subst heq
    subst hf
    rfl

/-- C8 witness: a request without the SSE accept header is rejected with 406,
and one with it and a flushing writer gets the three SSE headers set. -/
theorem C8_sse_gate_witness :
    xtemplate.flushingTemplateHandler (gs "text/html") true =
      .earlyError (httpError (gs "SSE endpoint") 406) ∧
    xtemplate.flushingTemplateHandler (gs "text/event-stream") true =
      .streamed xtemplate.sseHeaders :=
  ⟨(C8_sse_gate (gs "text/html") true).1 (by decide),
   (C8_sse_gate (gs "text/event-stream") true).2.2 rfl rfl⟩

/-- C10: once the instance's cancellation context is cancelled, ServeHTTP
responds 500 with body "server stopped" (plus http.Error's trailing newline)
and never dispatches to the router, so no route lookup and no template or
static handler runs. -/
theorem C10_cancelled_requests (routedPattern : List Char) :
    xtemplate.serveHTTP true routedPattern =
      .stopped (httpError (gs "server stopped") 500) ∧
    ∀ p, xtemplate.serveHTTP true routedPattern ≠ .dispatched p := by
  constructor
  · rfl
  · intro p h
    cases h

/-- C2 witness: the route derived for `a/b.html` does not end in a slash. -/
theorem C2_route_derivation_witness :
    (gs "GET /a/b").getLast? ≠ some '/' :=
  C2_route_derivation.2.2.2 (gs ".html") (gs "a/b.html") (gs "GET /a/b") (by decide)
